import Mathlib

/-!
Shallow embedding of klmitch/framer (src/framer/framer.py): the
`FramerState` mutable-mapping container and the abstract `Framer`
contract, together with proofs of the specification's claims about them.

Modelling conventions:

* Python values are `PyVal V`: either an opaque primitive value
  (`PyVal.base`, drawn from a parameter type `V`; these stand for the
  Python objects that are not subscriptable by a string key, such as
  ints and strings-indexed-by-string) or a Python dict with string keys
  (`PyVal.pydict`), modelled as an association list in insertion order
  with distinct keys maintained by the operations.
* A `FramerState` is its instance dictionary (Python `__dict__`):
  `FramerState.__init__` stores the bookkeeping entry `_data` (an empty
  dict) there, and `__setattr__`/`__delattr__` route every name with a
  leading underscore to `object.__setattr__`/`object.__delattr__`,
  i.e. straight into the instance dictionary.
* Fallible operations return `Except PyError _`. `keyError`,
  `attributeError` and `indexError` mirror the exceptions raised in
  framer.py (`name[0]` on an empty name raises IndexError).
  `typeError` models string-key subscripting or length on a
  `PyVal.base` value (so `base` stands for objects such as ints that
  support neither, as when `_data` has been rebound to a non-dict),
  and `recursionError` models the unbounded `__getattr__` recursion
  that `self._data` triggers once the `_data` entry has been deleted
  from the instance dictionary.
* The attribute model covers the names the framing state machinery can
  meet: instance-dictionary entries and the class's plain methods.
  The handful of special dunder attributes implemented as data
  descriptors of `object` (`__class__`, `__dict__`, ...) are outside
  its scope; every single-underscore name behaves exactly as
  `object.__setattr__`/`__delattr__` on the instance dictionary.
* Reading attributes follows the Python lookup order relevant here:
  the instance dictionary first (its entries shadow the class's plain
  methods, which are non-data descriptors), then the class attributes
  (the public methods `FramerState` inherits from
  `collections.abc.MutableMapping`), and only if both fail the
  `__getattr__` fallback into `self._data`.
-/

/-- A Python value: an opaque primitive, or a string-keyed dict. -/
inductive PyVal (V : Type) where
  | base (v : V)
  | pydict (d : List (String × PyVal V))

/-- The Python exceptions the embedded operations can raise. -/
inductive PyError where
  | attributeError (name : String)
  | keyError (name : String)
  | indexError
  | typeError
  | recursionError
deriving DecidableEq, Repr

namespace PyDict

variable {V : Type}

/-- Python `d[k]` lookup (as an Option): first entry with key `k`. -/
def lookup (d : List (String × V)) (k : String) : Option V :=
  match d with
  | [] => none
  | (k', v) :: rest => if k' = k then some v else lookup rest k

/-- Python `d[k] = v`: replace in place if the key is present
(insertion order is preserved), otherwise append at the end. -/
def set (d : List (String × V)) (k : String) (v : V) : List (String × V) :=
  match d with
  | [] => [(k, v)]
  | (k', v') :: rest =>
      if k' = k then (k, v) :: rest else (k', v') :: set rest k v

/-- Python `del d[k]`: drop the first entry with key `k`. -/
def del (d : List (String × V)) (k : String) : List (String × V) :=
  match d with
  | [] => []
  | (k', v') :: rest =>
      if k' = k then rest else (k', v') :: del rest k

end PyDict

/-- A name is reserved when its first character is an underscore
(the check `name[0] == '_'` in framer.py, on a nonempty name). -/
def reservedName (n : String) : Bool :=
  match n.toList with
  | [] => false
  | c :: _ => c = '_'

/-- A name usable as ordinary framing state: nonempty and not starting
with an underscore. -/
def validName (n : String) : Bool :=
  match n.toList with
  | [] => false
  | c :: _ => c ≠ '_'

/-- The non-underscore attributes `FramerState` inherits from
`collections.abc.MutableMapping` (its own methods are all dunders):
these participate in ordinary attribute lookup before the
`__getattr__` fallback is consulted. -/
def classAttrs : List String :=
  ["clear", "get", "items", "keys", "pop", "popitem", "setdefault", "update", "values"]

/-- `FramerState` as the contents of its instance `__dict__`. -/
structure FramerState (V : Type) where
  dunderDict : List (String × PyVal V)

namespace FramerState

variable {V : Type}

/-- `FramerState.__init__`: `self._data = {}` (the name starts with an
underscore, so `__setattr__` stores it in the instance dictionary). -/
def init : FramerState V := ⟨[("_data", .pydict [])]⟩

/-- Read `self._data` as the methods of framer.py do: ordinary
instance-dictionary lookup of the `_data` entry. If the entry holds a
non-dict value, subscripting it raises TypeError; if the entry is
absent, `self._data` re-enters `__getattr__` unboundedly
(RecursionError). -/
def getData (s : FramerState V) : Except PyError (List (String × PyVal V)) :=
  match PyDict.lookup s.dunderDict "_data" with
  | some (.pydict d) => .ok d
  | some (.base _) => .error .typeError
  | none => .error .recursionError

/-- Rebind the `_data` entry after a mutation of the data dict. -/
def setData (s : FramerState V) (d : List (String × PyVal V)) : FramerState V :=
  ⟨PyDict.set s.dunderDict "_data" (.pydict d)⟩

/-- Result of an attribute read: a bound method inherited from the
class, or a stored value. -/
inductive Attr (V : Type) where
  | method (name : String)
  | val (v : PyVal V)

/-- `FramerState.__getattr__` together with the ordinary attribute
lookup that precedes it: instance `__dict__` first, then the class
attributes, then the fallback `self._data[name]` with KeyError mapped
to AttributeError. -/
def getattr (s : FramerState V) (name : String) : Except PyError (Attr V) :=
  match PyDict.lookup s.dunderDict name with
  | some v => .ok (.val v)
  | none =>
      if name ∈ classAttrs then .ok (.method name)
      else
        match s.getData with
        | .ok d =>
            match PyDict.lookup d name with
            | some v => .ok (.val v)
            | none => .error (.attributeError name)
        | .error e => .error e

/-- `FramerState.__getitem__`: `return self._data[name]` (no
reserved-prefix check; KeyError propagates). -/
def getitem (s : FramerState V) (name : String) : Except PyError (PyVal V) :=
  match s.getData with
  | .ok d =>
      match PyDict.lookup d name with
      | some v => .ok v
      | none => .error (.keyError name)
  | .error e => .error e

/-- `FramerState.__setattr__`: names with a leading underscore go to
`super().__setattr__` (the instance dictionary); other names go to
`self._data[name] = value`. `name[0]` on an empty name raises
IndexError. -/
def setattr (s : FramerState V) (name : String) (value : PyVal V) :
    Except PyError (FramerState V) :=
  match name.toList with
  | [] => .error .indexError
  | c :: _ =>
      if c = '_' then .ok ⟨PyDict.set s.dunderDict name value⟩
      else
        match s.getData with
        | .ok d => .ok (s.setData (PyDict.set d name value))
        | .error e => .error e

/-- `FramerState.__setitem__`: a leading underscore raises
`KeyError(name)`; other names go to `self._data[name] = value`. -/
def setitem (s : FramerState V) (name : String) (value : PyVal V) :
    Except PyError (FramerState V) :=
  match name.toList with
  | [] => .error .indexError
  | c :: _ =>
      if c = '_' then .error (.keyError name)
      else
        match s.getData with
        | .ok d => .ok (s.setData (PyDict.set d name value))
        | .error e => .error e

/-- `FramerState.__delattr__`: a leading underscore goes to
`super().__delattr__` (the instance dictionary, AttributeError when
absent); other names delete from `self._data` with KeyError mapped to
AttributeError. -/
def delattr (s : FramerState V) (name : String) :
    Except PyError (FramerState V) :=
  match name.toList with
  | [] => .error .indexError
  | c :: _ =>
      if c = '_' then
        match PyDict.lookup s.dunderDict name with
        | some _ => .ok ⟨PyDict.del s.dunderDict name⟩
        | none => .error (.attributeError name)
      else
        match s.getData with
        | .ok d =>
            match PyDict.lookup d name with
            | some _ => .ok (s.setData (PyDict.del d name))
            | none => .error (.attributeError name)
        | .error e => .error e

/-- `FramerState.__delitem__`: a leading underscore raises
`KeyError(name)`; other names do `del self._data[name]` (KeyError when
absent). -/
def delitem (s : FramerState V) (name : String) :
    Except PyError (FramerState V) :=
  match name.toList with
  | [] => .error .indexError
  | c :: _ =>
      if c = '_' then .error (.keyError name)
      else
        match s.getData with
        | .ok d =>
            match PyDict.lookup d name with
            | some _ => .ok (s.setData (PyDict.del d name))
            | none => .error (.keyError name)
        | .error e => .error e

/-- `FramerState.__iter__`: the keys of `self._data`, in dict
(insertion) order. -/
def iterState (s : FramerState V) : Except PyError (List String) :=
  match s.getData with
  | .ok d => .ok (d.map Prod.fst)
  | .error e => .error e

/-- `FramerState.__len__`: `len(self._data)`. -/
def lenState (s : FramerState V) : Except PyError Nat :=
  match s.getData with
  | .ok d => .ok d.length
  | .error e => .error e

/-- Well-formedness maintained by the public operations: the `_data`
entry is present and holds a dict whose keys are all valid
(non-reserved, nonempty) names, and every instance-dictionary key has
a leading underscore. -/
def wf (s : FramerState V) : Bool :=
  (match PyDict.lookup s.dunderDict "_data" with
   | some (.pydict d) => d.all fun p => validName p.1
   | _ => false)
  && s.dunderDict.all fun p => reservedName p.1

end FramerState

/-- A public FramerState operation (both access styles, plus the
read-only iteration and size operations). -/
inductive Op (V : Type) where
  | attrGet (name : String)
  | attrSet (name : String) (value : PyVal V)
  | attrDel (name : String)
  | itemGet (name : String)
  | itemSet (name : String) (value : PyVal V)
  | itemDel (name : String)
  | iterate
  | size

namespace FramerState

variable {V : Type}

/-- The state after a fallible operation: the new state on success,
the old state when the operation raised (a raised exception leaves
the container untouched). -/
def keepOn (s : FramerState V) : Except PyError (FramerState V) → FramerState V
  | .ok s' => s'
  | .error _ => s

/-- Effect of one public operation on the state (reads never mutate;
`__getattr__`, `__getitem__`, `__iter__` and `__len__` take no write
path in framer.py). -/
def applyOp (s : FramerState V) : Op V → FramerState V
  | .attrGet _ => s
  | .attrSet n v => s.keepOn (s.setattr n v)
  | .attrDel n => s.keepOn (s.delattr n)
  | .itemGet _ => s
  | .itemSet n v => s.keepOn (s.setitem n v)
  | .itemDel n => s.keepOn (s.delitem n)
  | .iterate => s
  | .size => s

/-- Run a sequence of public operations. -/
def run (s : FramerState V) : List (Op V) → FramerState V
  | [] => s
  | op :: ops => run (s.applyOp op) ops

end FramerState

/-- An operation is outside the `_data` self-reference hole: it is not
an attribute-style write or delete of the bookkeeping name `_data`
itself. -/
def opAllowed {V : Type} : Op V → Bool
  | .attrSet n _ => n ≠ "_data"
  | .attrDel n => n ≠ "_data"
  | _ => true

/-- The default `Framer.initialize_state`: its body is `pass`, so the
state object is left exactly as it was. -/
def Framer.initialize_state {V : Type} (state : FramerState V) : FramerState V :=
  state

/-- Result of one `to_frame` (decode) call: either one frame together
with the remaining buffer and the updated state, or the NoFrames
condition with the state updated to record partial progress (the
buffer is left untouched in that case). -/
inductive DecodeResult (β F S : Type) where
  | frame (f : F) (rest : List β) (s : S)
  | noFrame (s : S)

/-- Modelled from the spec: a concrete framing strategy implementing
the `Framer` contract. No concrete framer is present under src (the
repository defines only the abstract `to_frame`/`to_bytes` interface,
whose bodies are `pass`), so the operations and the per-call
obligations that sections 4.2, 7 and 8 of the specification place on
every concrete strategy are modelled here as fields:

* `resume`: after a NoFrame outcome the bookkeeping saved into the
  state makes a later call on the extended buffer behave exactly as a
  fresh attempt from the pre-call state would (resume rather than
  restart);
* `underflow`: on strictly fewer bytes than one full encoded frame,
  decode signals NoFrame (the partial-delivery property);
* `decode_encode`: decoding the exact bytes of one encoded frame from
  the same session state consumes them entirely and yields an
  equivalent frame (`fequiv` is the strategy's frame equivalence). -/
structure ConcreteFramer (β F S : Type) where
  to_frame : List β → S → DecodeResult β F S
  to_bytes : F → S → List β
  fequiv : F → F → Prop
  resume : ∀ buf s s' more, to_frame buf s = .noFrame s' →
    to_frame (buf ++ more) s' = to_frame (buf ++ more) s
  underflow : ∀ f s pre post, pre ++ post = to_bytes f s → post ≠ [] →
    ∃ s', to_frame pre s = .noFrame s'
  decode_encode : ∀ f s, ∃ f' s', to_frame (to_bytes f s) s = .frame f' [] s'
    ∧ fequiv f' f

/-- Outcome of one buffer-append-then-decode step, as the caller
observes it. -/
inductive FeedStep (β F : Type) where
  | miss
  | hit (f : F) (rest : List β)

/-- Feed the chunks one at a time into the accumulated buffer, calling
decode after each append, stopping at the first decoded frame. -/
def feed {β F S : Type} (fr : ConcreteFramer β F S) (s : S) (acc : List β) :
    List (List β) → List (FeedStep β F)
  | [] => []
  | c :: cs =>
      match fr.to_frame (acc ++ c) s with
      | .frame f rest _ => [.hit f rest]
      | .noFrame s' => .miss :: feed fr s' (acc ++ c) cs

/-- Modelled from the spec: a fixed-width strategy (two bytes per
frame, the frame value repeated) witnessing that the contract
obligations are satisfiable and that the chunked law produces an
actual NoFrame step. -/
def duoFramer : ConcreteFramer Nat Nat Unit where
  to_frame buf _ :=
    match buf with
    | b1 :: _ :: rest => .frame b1 rest ()
    | _ => .noFrame ()
  to_bytes f _ := [f, f]
  fequiv := Eq
  resume := by
    intro buf s s' more h
    rfl
  underflow := by
    intro f s pre post hpp hpost
    rcases pre with _ | ⟨a, _ | ⟨b, l⟩⟩
    · exact ⟨(), rfl⟩
    · exact ⟨(), rfl⟩
    · cases post with
      | nil => exact absurd rfl hpost
      | cons x m => simp at hpp
  decode_encode := by
    intro f s
    exact ⟨f, (), rfl, rfl⟩

namespace PyDict

variable {V : Type}

@[simp] theorem lookup_nil (k : String) : lookup ([] : List (String × V)) k = none := rfl

@[simp] theorem lookup_cons (k' : String) (v : V) (rest : List (String × V)) (k : String) :
    lookup ((k', v) :: rest) k = if k' = k then some v else lookup rest k := rfl

@[simp] theorem set_nil (k : String) (v : V) : set ([] : List (String × V)) k v = [(k, v)] := rfl

@[simp] theorem del_nil (k : String) : del ([] : List (String × V)) k = [] := rfl

theorem lookup_set_self (d : List (String × V)) (k : String) (v : V) :
    lookup (set d k v) k = some v := by
  induction d with
  | nil => simp [set]
  | cons p rest ih =>
      obtain ⟨k', v'⟩ := p
      by_cases h : k' = k
      · simp [set, h]
      · simp [set, h, ih]

theorem lookup_set_ne (d : List (String × V)) (k k' : String) (v : V) (h : k ≠ k') :
    lookup (set d k v) k' = lookup d k' := by
  induction d with
  | nil => simp [set, h]
  | cons p rest ih =>
      obtain ⟨k0, v0⟩ := p
      by_cases h0 : k0 = k
      · subst h0
        simp [set, h]
      · simp [set, h0, ih]

theorem lookup_del_ne (d : List (String × V)) (k k' : String) (h : k ≠ k') :
    lookup (del d k) k' = lookup d k' := by
  induction d with
  | nil => simp [del]
  | cons p rest ih =>
      obtain ⟨k0, v0⟩ := p
      by_cases h0 : k0 = k
      · subst h0
        simp [del, h]
      · simp [del, h0, ih]

theorem mem_set (d : List (String × V)) (k : String) (v : V) (p : String × V)
    (hp : p ∈ set d k v) : p ∈ d ∨ p = (k, v) := by
  induction d with
  | nil =>
      right
      simpa [set] using hp
  | cons q rest ih =>
      obtain ⟨k0, v0⟩ := q
      by_cases h0 : k0 = k
      · simp only [set, h0, if_pos rfl] at hp
        rcases List.mem_cons.mp hp with h | h
        · right; exact h
        · left; exact List.mem_cons_of_mem _ h
      · simp only [set, if_neg h0] at hp
        rcases List.mem_cons.mp hp with h | h
        · left; exact h ▸ List.mem_cons_self _ _
        · rcases ih h with h' | h'
          · left; exact List.mem_cons_of_mem _ h'
          · right; exact h'

theorem mem_del (d : List (String × V)) (k : String) (p : String × V)
    (hp : p ∈ del d k) : p ∈ d := by
  induction d with
  | nil => simp [del] at hp
  | cons q rest ih =>
      obtain ⟨k0, v0⟩ := q
      by_cases h0 : k0 = k
      · simp only [del, if_pos h0] at hp
        exact List.mem_cons_of_mem _ hp
      · simp only [del, if_neg h0] at hp
        rcases List.mem_cons.mp hp with h | h
        · exact h ▸ List.mem_cons_self _ _
        · exact List.mem_cons_of_mem _ (ih h)

theorem lookup_mem (d : List (String × V)) (k : String) (v : V)
    (h : lookup d k = some v) : (k, v) ∈ d := by
  induction d with
  | nil => simp [lookup] at h
  | cons p rest ih =>
      obtain ⟨k', v'⟩ := p
      rw [lookup_cons] at h
      by_cases hk : k' = k
      · rw [if_pos hk] at h
        injection h with h
        subst hk
        subst h
        exact List.mem_cons_self _ _
      · rw [if_neg hk] at h
        exact List.mem_cons_of_mem _ (ih h)

theorem lookup_eq_none (d : List (String × V)) (k : String)
    (h : ∀ p ∈ d, p.1 ≠ k) : lookup d k = none := by
  match hl : lookup d k with
  | none => rfl
  | some v => exact absurd rfl (h _ (lookup_mem d k v hl))

end PyDict

namespace FramerState

variable {V : Type}

@[simp] theorem run_nil (s : FramerState V) : s.run [] = s := rfl

@[simp] theorem run_cons (s : FramerState V) (op : Op V) (ops : List (Op V)) :
    s.run (op :: ops) = (s.applyOp op).run ops := rfl

end FramerState

theorem reservedName_iff (n : String) :
    reservedName n = true ↔ ∃ t, n.toList = '_' :: t := by
  unfold reservedName
  rcases h : n.toList with _ | ⟨c, t⟩ <;> simp [List.cons.injEq]

theorem validName_iff (n : String) :
    validName n = true ↔ ∃ c t, n.toList = c :: t ∧ c ≠ '_' := by
  unfold validName
  rcases h : n.toList with _ | ⟨c, t⟩ <;> simp [List.cons.injEq]

theorem reservedName_eq_false_of_valid (n : String) (h : validName n = true) :
    reservedName n = false := by
  obtain ⟨c, t, ht, hc⟩ := (validName_iff n).mp h
  unfold reservedName
  rw [ht]
  simpa using hc

theorem valid_ne_of_reserved (a b : String) (ha : validName a = true)
    (hb : reservedName b = true) : b ≠ a := by
  intro h
  rw [h, reservedName_eq_false_of_valid a ha] at hb
  cases hb

theorem valid_ne_data (n : String) (h : validName n = true) : n ≠ "_data" :=
  fun heq => by
    rw [heq] at h
    exact absurd h (by decide)

namespace FramerState

variable {V : Type}

theorem wf_iff (s : FramerState V) :
    s.wf = true ↔
      ((∃ d, PyDict.lookup s.dunderDict "_data" = some (.pydict d)
          ∧ ∀ p ∈ d, validName p.1 = true)
        ∧ ∀ p ∈ s.dunderDict, reservedName p.1 = true) := by
  unfold wf
  rw [Bool.and_eq_true, List.all_eq_true]
  constructor
  · rintro ⟨h1, h2⟩
    refine ⟨?_, fun p hp => h2 p hp⟩
    rcases hl : PyDict.lookup s.dunderDict "_data" with _ | v
    · rw [hl] at h1; cases h1
    · rcases v with w | d
      · rw [hl] at h1; cases h1
      · rw [hl] at h1
        exact ⟨d, rfl, by simpa [List.all_eq_true] using h1⟩
  · rintro ⟨⟨d, hd, hvalid⟩, hres⟩
    rw [hd]
    exact ⟨by simpa [List.all_eq_true] using hvalid, fun p hp => hres p hp⟩

theorem wf_getData (s : FramerState V) (h : s.wf = true) :
    ∃ d, s.getData = .ok d ∧ ∀ p ∈ d, validName p.1 = true := by
  obtain ⟨⟨d, hd, hvalid⟩, _⟩ := (wf_iff s).mp h
  exact ⟨d, by simp [getData, hd], hvalid⟩

theorem wf_dunder_reserved (s : FramerState V) (h : s.wf = true) :
    ∀ p ∈ s.dunderDict, reservedName p.1 = true :=
  ((wf_iff s).mp h).2

/-- Under well-formedness, a valid (non-reserved) name is never a key
of the instance dictionary, so ordinary attribute lookup cannot find
it there. -/
theorem wf_dunder_lookup_valid (s : FramerState V) (h : s.wf = true)
    (n : String) (hn : validName n = true) :
    PyDict.lookup s.dunderDict n = none :=
  PyDict.lookup_eq_none _ _ fun p hp =>
    valid_ne_of_reserved n p.1 hn (wf_dunder_reserved s h p hp)

@[simp] theorem getData_setData (s : FramerState V) (d : List (String × PyVal V)) :
    (s.setData d).getData = .ok d := by
  simp [getData, setData, PyDict.lookup_set_self]

theorem getData_ok_iff (s : FramerState V) (d : List (String × PyVal V)) :
    s.getData = .ok d ↔ PyDict.lookup s.dunderDict "_data" = some (.pydict d) := by
  unfold getData
  rcases h : PyDict.lookup s.dunderDict "_data" with _ | v
  · simp
  · rcases v with w | d' <;> simp

theorem wf_setData (s : FramerState V) (d : List (String × PyVal V))
    (h : s.wf = true) (hd : ∀ p ∈ d, validName p.1 = true) :
    (s.setData d).wf = true := by
  rw [wf_iff]
  refine ⟨⟨d, by simp [setData, PyDict.lookup_set_self], hd⟩, ?_⟩
  intro p hp
  rcases PyDict.mem_set _ _ _ _ hp with h' | h'
  · exact wf_dunder_reserved s h p h'
  · have h1 : p.1 = "_data" := by rw [h']
    rw [h1]
    decide

theorem setattr_reserved (s : FramerState V) (n : String) (v : PyVal V)
    (h : reservedName n = true) :
    s.setattr n v = .ok ⟨PyDict.set s.dunderDict n v⟩ := by
  obtain ⟨t, ht⟩ := (reservedName_iff n).mp h
  have ht' : n.data = '_' :: t := ht
  simp [setattr, ht']

theorem setattr_valid (s : FramerState V) (n : String) (v : PyVal V)
    (d : List (String × PyVal V)) (hn : validName n = true) (hd : s.getData = .ok d) :
    s.setattr n v = .ok (s.setData (PyDict.set d n v)) := by
  obtain ⟨c, t, ht, hc⟩ := (validName_iff n).mp hn
  have ht' : n.data = c :: t := ht
  simp [setattr, ht', hc, hd]

theorem setitem_reserved (s : FramerState V) (n : String) (v : PyVal V)
    (h : reservedName n = true) :
    s.setitem n v = .error (.keyError n) := by
  obtain ⟨t, ht⟩ := (reservedName_iff n).mp h
  have ht' : n.data = '_' :: t := ht
  simp [setitem, ht']

theorem setitem_valid (s : FramerState V) (n : String) (v : PyVal V)
    (d : List (String × PyVal V)) (hn : validName n = true) (hd : s.getData = .ok d) :
    s.setitem n v = .ok (s.setData (PyDict.set d n v)) := by
  obtain ⟨c, t, ht, hc⟩ := (validName_iff n).mp hn
  have ht' : n.data = c :: t := ht
  simp [setitem, ht', hc, hd]

theorem delattr_reserved (s : FramerState V) (n : String)
    (h : reservedName n = true) :
    s.delattr n =
      match PyDict.lookup s.dunderDict n with
      | some _ => .ok ⟨PyDict.del s.dunderDict n⟩
      | none => .error (.attributeError n) := by
  obtain ⟨t, ht⟩ := (reservedName_iff n).mp h
  have ht' : n.data = '_' :: t := ht
  simp [delattr, ht']

theorem delattr_valid (s : FramerState V) (n : String)
    (d : List (String × PyVal V)) (hn : validName n = true) (hd : s.getData = .ok d) :
    s.delattr n =
      match PyDict.lookup d n with
      | some _ => .ok (s.setData (PyDict.del d n))
      | none => .error (.attributeError n) := by
  obtain ⟨c, t, ht, hc⟩ := (validName_iff n).mp hn
  have ht' : n.data = c :: t := ht
  simp [delattr, ht', hc, hd]

theorem delitem_reserved (s : FramerState V) (n : String)
    (h : reservedName n = true) :
    s.delitem n = .error (.keyError n) := by
  obtain ⟨t, ht⟩ := (reservedName_iff n).mp h
  have ht' : n.data = '_' :: t := ht
  simp [delitem, ht']

theorem delitem_valid (s : FramerState V) (n : String)
    (d : List (String × PyVal V)) (hn : validName n = true) (hd : s.getData = .ok d) :
    s.delitem n =
      match PyDict.lookup d n with
      | some _ => .ok (s.setData (PyDict.del d n))
      | none => .error (.keyError n) := by
  obtain ⟨c, t, ht, hc⟩ := (validName_iff n).mp hn
  have ht' : n.data = c :: t := ht
  simp [delitem, ht', hc, hd]

theorem getitem_of_getData (s : FramerState V) (n : String)
    (d : List (String × PyVal V)) (hd : s.getData = .ok d) :
    s.getitem n =
      match PyDict.lookup d n with
      | some v => .ok v
      | none => .error (.keyError n) := by
  simp [getitem, hd]

theorem getattr_fallback (s : FramerState V) (n : String)
    (d : List (String × PyVal V))
    (hdun : PyDict.lookup s.dunderDict n = none) (hcls : n ∉ classAttrs)
    (hd : s.getData = .ok d) :
    s.getattr n =
      match PyDict.lookup d n with
      | some v => .ok (.val v)
      | none => .error (.attributeError n) := by
  simp [getattr, hdun, hcls, hd]

theorem getattr_classAttr (s : FramerState V) (n : String)
    (hdun : PyDict.lookup s.dunderDict n = none) (hcls : n ∈ classAttrs) :
    s.getattr n = .ok (.method n) := by
  simp [getattr, hdun, hcls]

end FramerState

/-- A name that is neither reserved nor valid is the empty string. -/
theorem toList_nil_of_not_names (n : String) (hres : reservedName n = false)
    (hval : validName n = false) : n.toList = [] := by
  rcases h0 : n.toList with _ | ⟨c, t⟩
  · rfl
  · by_cases hc : c = '_'
    · rw [(reservedName_iff n).mpr ⟨t, by rw [h0, hc]⟩] at hres
      cases hres
    · rw [(validName_iff n).mpr ⟨c, t, h0, hc⟩] at hval
      cases hval

namespace FramerState

variable {V : Type}

theorem wf_init : (init : FramerState V).wf = true := rfl

theorem wf_applyOp (s : FramerState V) (op : Op V)
    (hwf : s.wf = true) (hop : opAllowed op = true) :
    (s.applyOp op).wf = true := by
  obtain ⟨d, hd, hvalid⟩ := wf_getData s hwf
  have hset : ∀ n v, validName n = true →
      (s.setData (PyDict.set d n v)).wf = true := by
    intro n v hn
    refine wf_setData s _ hwf ?_
    intro p hp
    rcases PyDict.mem_set _ _ _ _ hp with h' | h'
    · exact hvalid p h'
    · have h1 : p.1 = n := by rw [h']
      rw [h1]
      exact hn
  have hdel : ∀ n, (s.setData (PyDict.del d n)).wf = true := fun n =>
    wf_setData s _ hwf fun p hp => hvalid p (PyDict.mem_del _ _ _ hp)
  cases op with
  | attrGet n => exact hwf
  | itemGet n => exact hwf
  | iterate => exact hwf
  | size => exact hwf
  | attrSet n v =>
      rcases hres : reservedName n with _ | _
      · rcases hval : validName n with _ | _
        · have hnil := toList_nil_of_not_names n hres hval
          simp only [applyOp, setattr, hnil, keepOn]
          exact hwf
        · simp only [applyOp, setattr_valid s n v d hval hd, keepOn]
          exact hset n v hval
      · simp only [applyOp, setattr_reserved s n v hres, keepOn]
        rw [wf_iff]
        have hne : n ≠ "_data" := by simpa [opAllowed] using hop
        constructor
        · refine ⟨d, ?_, hvalid⟩
          rw [PyDict.lookup_set_ne _ _ _ _ hne]
          exact (getData_ok_iff s d).mp hd
        · intro p hp
          rcases PyDict.mem_set _ _ _ _ hp with h' | h'
          · exact wf_dunder_reserved s hwf p h'
          · have h1 : p.1 = n := by rw [h']
            rw [h1]
            exact hres
  | itemSet n v =>
      rcases hres : reservedName n with _ | _
      · rcases hval : validName n with _ | _
        · have hnil := toList_nil_of_not_names n hres hval
          simp only [applyOp, setitem, hnil, keepOn]
          exact hwf
        · simp only [applyOp, setitem_valid s n v d hval hd, keepOn]
          exact hset n v hval
      · simp only [applyOp, setitem_reserved s n v hres, keepOn]
        exact hwf
  | attrDel n =>
      rcases hres : reservedName n with _ | _
      · rcases hval : validName n with _ | _
        · have hnil := toList_nil_of_not_names n hres hval
          simp only [applyOp, delattr, hnil, keepOn]
          exact hwf
        · rcases hl : PyDict.lookup d n with _ | w
          · simp only [applyOp, delattr_valid s n d hval hd, hl, keepOn]
            exact hwf
          · simp only [applyOp, delattr_valid s n d hval hd, hl, keepOn]
            exact hdel n
      · rcases hl : PyDict.lookup s.dunderDict n with _ | w
        · simp only [applyOp, delattr_reserved s n hres, hl, keepOn]
          exact hwf
        · simp only [applyOp, delattr_reserved s n hres, hl, keepOn]
          rw [wf_iff]
          have hne : n ≠ "_data" := by simpa [opAllowed] using hop
          constructor
          · refine ⟨d, ?_, hvalid⟩
            rw [PyDict.lookup_del_ne _ _ _ hne]
            exact (getData_ok_iff s d).mp hd
          · intro p hp
            exact wf_dunder_reserved s hwf p (PyDict.mem_del _ _ _ hp)
  | itemDel n =>
      rcases hres : reservedName n with _ | _
      · rcases hval : validName n with _ | _
        · have hnil := toList_nil_of_not_names n hres hval
          simp only [applyOp, delitem, hnil, keepOn]
          exact hwf
        · rcases hl : PyDict.lookup d n with _ | w
          · simp only [applyOp, delitem_valid s n d hval hd, hl, keepOn]
            exact hwf
          · simp only [applyOp, delitem_valid s n d hval hd, hl, keepOn]
            exact hdel n
      · simp only [applyOp, delitem_reserved s n hres, keepOn]
        exact hwf

theorem wf_run (s : FramerState V) (ops : List (Op V))
    (hwf : s.wf = true) (hops : ∀ op ∈ ops, opAllowed op = true) :
    (s.run ops).wf = true := by
  induction ops generalizing s with
  | nil => exact hwf
  | cons op ops ih =>
      rw [run_cons]
      exact ih _ (wf_applyOp s op hwf (hops op (List.mem_cons_self _ _)))
        fun o ho => hops o (List.mem_cons_of_mem _ ho)

end FramerState

/-- Every class attribute name is a valid (non-reserved, nonempty)
name. -/
theorem classAttrs_valid : ∀ n ∈ classAttrs, validName n = true := by decide

/-- Claim C10: every mutating FramerState operation (set and delete, in
both styles) inspects `name[0]` without guarding against an empty name,
so on the empty name each raises IndexError — neither storing a value
nor signaling KeyError or AttributeError — and leaves the state
unchanged. -/
theorem C10_empty_name_indexError {V : Type} (s : FramerState V) (v : PyVal V) :
    s.setattr "" v = .error .indexError
    ∧ s.setitem "" v = .error .indexError
    ∧ s.delattr "" = .error .indexError
    ∧ s.delitem "" = .error .indexError
    ∧ s.applyOp (.attrSet "" v) = s
    ∧ s.applyOp (.itemSet "" v) = s
    ∧ s.applyOp (.attrDel "") = s
    ∧ s.applyOp (.itemDel "") = s :=
  ⟨rfl, rfl, rfl, rfl, rfl, rfl, rfl, rfl⟩

/-- Claim C3: subscript-style set and delete of a reserved-prefixed
name always fail with KeyError (the InvalidKey condition) on every
state — in particular regardless of any earlier attribute-style write
of that name — and leave the state (hence the mapping) unchanged. -/
theorem C3_reserved_subscript_keyError {V : Type} (s : FramerState V) (n : String)
    (v : PyVal V) (h : reservedName n = true) :
    s.setitem n v = .error (.keyError n)
    ∧ s.delitem n = .error (.keyError n)
    ∧ s.applyOp (.itemSet n v) = s
    ∧ s.applyOp (.itemDel n) = s := by
  refine ⟨FramerState.setitem_reserved s n v h, FramerState.delitem_reserved s n h, ?_, ?_⟩
  · simp only [FramerState.applyOp, FramerState.setitem_reserved s n v h, FramerState.keepOn]
  · simp only [FramerState.applyOp, FramerState.delitem_reserved s n h, FramerState.keepOn]

/-- Witness for C3: the reserved name `_attr`, on a state where that
name was previously set via the attribute style. -/
theorem C3_witness :
    reservedName "_attr" = true
    ∧ (((FramerState.init : FramerState Nat).run [.attrSet "_attr" (.base 1)]).setitem
          "_attr" (.base 2) = .error (.keyError "_attr")
      ∧ ((FramerState.init : FramerState Nat).run [.attrSet "_attr" (.base 1)]).delitem
          "_attr" = .error (.keyError "_attr")
      ∧ ((FramerState.init : FramerState Nat).run [.attrSet "_attr" (.base 1)]).applyOp
          (.itemSet "_attr" (.base 2))
          = (FramerState.init : FramerState Nat).run [.attrSet "_attr" (.base 1)]
      ∧ ((FramerState.init : FramerState Nat).run [.attrSet "_attr" (.base 1)]).applyOp
          (.itemDel "_attr")
          = (FramerState.init : FramerState Nat).run [.attrSet "_attr" (.base 1)]) :=
  ⟨by decide,
   C3_reserved_subscript_keyError
     ((FramerState.init : FramerState Nat).run [.attrSet "_attr" (.base 1)])
     "_attr" (.base 2) (by decide)⟩

/-- Claim C6: the abstract Framer's default initialize_state is a
no-op — the state after the call is identical to the state before it
(no mapping entry and no private field added, removed or changed). -/
theorem C6_initialize_state_noop {V : Type} (state : FramerState V) :
    Framer.initialize_state state = state
    ∧ (Framer.initialize_state state).dunderDict = state.dunderDict
    ∧ (∀ n, (Framer.initialize_state state).getattr n = state.getattr n)
    ∧ (Framer.initialize_state state).lenState = state.lenState
    ∧ (Framer.initialize_state state).iterState = state.iterState :=
  ⟨rfl, rfl, fun _ => rfl, rfl, rfl⟩

/-- Claim C8: a non-reserved name that is also an attribute of the
FramerState class (a MutableMapping method such as get, keys, items,
values, pop, clear, update, setdefault) reads back as the class
attribute (the bound method) in the attribute style — never as the
stored mapping value, even right after a successful set of that name —
while the subscript style returns the stored value, because the
`__getattr__` fallback into the mapping runs only when ordinary
attribute lookup fails. -/
theorem C8_class_attribute_shadowing {V : Type} (s : FramerState V) (n : String)
    (v : PyVal V) (hwf : s.wf = true) (hcls : n ∈ classAttrs) :
    s.getattr n = .ok (.method n)
    ∧ ∃ s', s.setattr n v = .ok s'
        ∧ s'.getattr n = .ok (.method n)
        ∧ s'.getitem n = .ok v := by
  have hval : validName n = true := classAttrs_valid n hcls
  have hdun : PyDict.lookup s.dunderDict n = none :=
    FramerState.wf_dunder_lookup_valid s hwf n hval
  obtain ⟨d, hd, hvalid⟩ := FramerState.wf_getData s hwf
  have hne : "_data" ≠ n := valid_ne_of_reserved n "_data" hval (by decide)
  have hdun' : PyDict.lookup (s.setData (PyDict.set d n v)).dunderDict n = none := by
    show PyDict.lookup (PyDict.set s.dunderDict "_data" _) n = none
    rw [PyDict.lookup_set_ne _ _ _ _ hne]
    exact hdun
  refine ⟨FramerState.getattr_classAttr s n hdun hcls,
    s.setData (PyDict.set d n v), FramerState.setattr_valid s n v d hval hd,
    FramerState.getattr_classAttr _ n hdun' hcls, ?_⟩
  rw [FramerState.getitem_of_getData _ n (PyDict.set d n v) (FramerState.getData_setData s _),
    PyDict.lookup_set_self]

/-- Witness for C8: the inherited method name `keys` on a freshly
initialized state. -/
theorem C8_witness :
    (FramerState.init : FramerState Nat).wf = true
    ∧ "keys" ∈ classAttrs
    ∧ ((FramerState.init : FramerState Nat).getattr "keys" = .ok (.method "keys")
      ∧ ∃ s', (FramerState.init : FramerState Nat).setattr "keys" (.base 7) = .ok s'
          ∧ s'.getattr "keys" = .ok (.method "keys")
          ∧ s'.getitem "keys" = .ok (.base 7)) :=
  ⟨rfl, by decide,
   C8_class_attribute_shadowing (FramerState.init : FramerState Nat) "keys" (.base 7)
     rfl (by decide)⟩

/-- Claim C9 as stated is false: after the attribute-style private
write of the reserved name `_data` itself (with a dict value that
contains the key `_data`), the subscript-style read of `_data`
succeeds, rather than failing with the key-missing KeyError the claim
promises for every reserved name. -/
theorem C9_counterexample :
    ∃ s' : FramerState Nat,
      (FramerState.init : FramerState Nat).setattr "_data"
          (.pydict [("_data", .base 42)]) = .ok s'
      ∧ s'.getitem "_data" = .ok (.base 42)
      ∧ s'.getitem "_data" ≠ .error (.keyError "_data") :=
  ⟨⟨[("_data", .pydict [("_data", .base 42)])]⟩, rfl, rfl, fun h => Except.noConfusion h⟩

/-- Claim C9, amended: for every reserved-prefixed name other than the
container's own bookkeeping name `_data`, subscript-style read performs
no reserved-prefix check and fails with the key-missing KeyError (never
the InvalidKey behaviour of the write path) — in particular it still
fails with key-missing after that name was set as a private field via
the attribute style, because such writes never enter the mapping. -/
theorem C9_amended_reserved_subscript_read {V : Type} (s : FramerState V) (n : String)
    (v : PyVal V) (hwf : s.wf = true) (hres : reservedName n = true)
    (hne : n ≠ "_data") :
    s.getitem n = .error (.keyError n)
    ∧ ∃ s', s.setattr n v = .ok s'
        ∧ s'.getData = s.getData
        ∧ s'.getitem n = .error (.keyError n) := by
  obtain ⟨d, hd, hvalid⟩ := FramerState.wf_getData s hwf
  have hlook : PyDict.lookup d n = none :=
    PyDict.lookup_eq_none d n fun p hp =>
      (valid_ne_of_reserved p.1 n (hvalid p hp) hres).symm
  have h1 : s.getitem n = .error (.keyError n) := by
    rw [FramerState.getitem_of_getData s n d hd, hlook]
  have hgd : (⟨PyDict.set s.dunderDict n v⟩ : FramerState V).getData = s.getData := by
    simp [FramerState.getData, PyDict.lookup_set_ne _ _ _ _ hne]
  refine ⟨h1, ⟨PyDict.set s.dunderDict n v⟩,
    FramerState.setattr_reserved s n v hres, hgd, ?_⟩
  rw [FramerState.getitem_of_getData _ n d (hgd.trans hd), hlook]

/-- Witness for the amended C9: the reserved name `_x` on a freshly
initialized state. -/
theorem C9_witness :
    (FramerState.init : FramerState Nat).wf = true
    ∧ reservedName "_x" = true
    ∧ "_x" ≠ "_data"
    ∧ ((FramerState.init : FramerState Nat).getitem "_x" = .error (.keyError "_x")
      ∧ ∃ s', (FramerState.init : FramerState Nat).setattr "_x" (.base 9) = .ok s'
          ∧ s'.getData = (FramerState.init : FramerState Nat).getData
          ∧ s'.getitem "_x" = .error (.keyError "_x")) :=
  ⟨rfl, by decide, by decide,
   C9_amended_reserved_subscript_read (FramerState.init : FramerState Nat) "_x"
     (.base 9) rfl (by decide) (by decide)⟩

/-- Claim C2 as stated is false: the non-reserved name `get` is also a
MutableMapping method of the class, so after setting it (the value is
stored in the mapping and the subscript style does read it back), the
attribute-style read returns the bound method instead of the stored
value. -/
theorem C2_counterexample :
    ∃ s' : FramerState Nat,
      (FramerState.init : FramerState Nat).setattr "get" (.base 5) = .ok s'
      ∧ s'.getitem "get" = .ok (.base 5)
      ∧ s'.getattr "get" = .ok (.method "get")
      ∧ s'.getattr "get" ≠ .ok (.val (.base 5)) := by
  refine ⟨⟨[("_data", .pydict [("get", .base 5)])]⟩, rfl, rfl, rfl, fun h => ?_⟩
  have h2 : FramerState.Attr.method (V := Nat) "get" = .val (.base 5) :=
    Except.ok.inj h
  exact FramerState.Attr.noConfusion h2

/-- Claim C2, amended: for every non-reserved name that is not an
attribute of the FramerState class, after setting it to a value via
either the attribute style or the subscript style (both produce the
identical state), reading it returns that value via both styles. -/
theorem C2_amended_set_get_consistent {V : Type} (s : FramerState V) (n : String)
    (v : PyVal V) (hwf : s.wf = true) (hn : validName n = true)
    (hcls : n ∉ classAttrs) :
    ∃ s', s.setattr n v = .ok s'
      ∧ s.setitem n v = .ok s'
      ∧ s'.getattr n = .ok (.val v)
      ∧ s'.getitem n = .ok v := by
  obtain ⟨d, hd, hvalid⟩ := FramerState.wf_getData s hwf
  have hne : "_data" ≠ n := valid_ne_of_reserved n "_data" hn (by decide)
  have hdun' : PyDict.lookup (s.setData (PyDict.set d n v)).dunderDict n = none := by
    show PyDict.lookup (PyDict.set s.dunderDict "_data" _) n = none
    rw [PyDict.lookup_set_ne _ _ _ _ hne]
    exact FramerState.wf_dunder_lookup_valid s hwf n hn
  refine ⟨s.setData (PyDict.set d n v),
    FramerState.setattr_valid s n v d hn hd,
    FramerState.setitem_valid s n v d hn hd, ?_, ?_⟩
  · rw [FramerState.getattr_fallback _ n (PyDict.set d n v) hdun' hcls
      (FramerState.getData_setData s _), PyDict.lookup_set_self]
  · rw [FramerState.getitem_of_getData _ n (PyDict.set d n v)
      (FramerState.getData_setData s _), PyDict.lookup_set_self]

/-- Witness for the amended C2: the name `count` on a freshly
initialized state. -/
theorem C2_witness :
    (FramerState.init : FramerState Nat).wf = true
    ∧ validName "count" = true
    ∧ "count" ∉ classAttrs
    ∧ ∃ s', (FramerState.init : FramerState Nat).setattr "count" (.base 3) = .ok s'
        ∧ (FramerState.init : FramerState Nat).setitem "count" (.base 3) = .ok s'
        ∧ s'.getattr "count" = .ok (.val (.base 3))
        ∧ s'.getitem "count" = .ok (.base 3) :=
  ⟨rfl, by decide, by decide,
   C2_amended_set_get_consistent (FramerState.init : FramerState Nat) "count"
     (.base 3) rfl (by decide) (by decide)⟩

/-- Claim C4 as stated is false: the non-reserved name `keys` is never
set on a fresh state, yet the attribute-style read succeeds with the
inherited bound method instead of raising AttributeError. -/
theorem C4_counterexample :
    (FramerState.init : FramerState Nat).getattr "keys" = .ok (.method "keys")
    ∧ (FramerState.init : FramerState Nat).getattr "keys"
        ≠ .error (.attributeError "keys") :=
  ⟨rfl, fun h => Except.noConfusion h⟩

/-- Claim C4, amended: for every non-reserved name that is not an
attribute of the FramerState class and is not currently set (never
set, or already deleted), get fails with AttributeError in the
attribute style and KeyError in the subscript style, delete fails with
AttributeError in the attribute style and KeyError in the subscript
style, and the failed operations leave the state unchanged. -/
theorem C4_amended_notfound {V : Type} (s : FramerState V) (n : String)
    (d : List (String × PyVal V)) (hwf : s.wf = true) (hn : validName n = true)
    (hcls : n ∉ classAttrs) (hd : s.getData = .ok d)
    (habs : PyDict.lookup d n = none) :
    s.getattr n = .error (.attributeError n)
    ∧ s.getitem n = .error (.keyError n)
    ∧ s.delattr n = .error (.attributeError n)
    ∧ s.delitem n = .error (.keyError n)
    ∧ s.applyOp (.attrDel n) = s
    ∧ s.applyOp (.itemDel n) = s := by
  have hdun : PyDict.lookup s.dunderDict n = none :=
    FramerState.wf_dunder_lookup_valid s hwf n hn
  refine ⟨?_, ?_, ?_, ?_, ?_, ?_⟩
  · rw [FramerState.getattr_fallback s n d hdun hcls hd, habs]
  · rw [FramerState.getitem_of_getData s n d hd, habs]
  · rw [FramerState.delattr_valid s n d hn hd, habs]
  · rw [FramerState.delitem_valid s n d hn hd, habs]
  · simp only [FramerState.applyOp, FramerState.delattr_valid s n d hn hd, habs,
      FramerState.keepOn]
  · simp only [FramerState.applyOp, FramerState.delitem_valid s n d hn hd, habs,
      FramerState.keepOn]

/-- Witness for the amended C4: the name `gone` after it was set and
then deleted (the already-deleted case of the claim). -/
theorem C4_witness :
    ((FramerState.init : FramerState Nat).run
        [.attrSet "gone" (.base 1), .attrDel "gone"]).wf = true
    ∧ validName "gone" = true
    ∧ "gone" ∉ classAttrs
    ∧ ((FramerState.init : FramerState Nat).run
        [.attrSet "gone" (.base 1), .attrDel "gone"]).getData = .ok []
    ∧ PyDict.lookup ([] : List (String × PyVal Nat)) "gone" = none
    ∧ (((FramerState.init : FramerState Nat).run
          [.attrSet "gone" (.base 1), .attrDel "gone"]).getattr "gone"
          = .error (.attributeError "gone")
      ∧ ((FramerState.init : FramerState Nat).run
          [.attrSet "gone" (.base 1), .attrDel "gone"]).getitem "gone"
          = .error (.keyError "gone")
      ∧ ((FramerState.init : FramerState Nat).run
          [.attrSet "gone" (.base 1), .attrDel "gone"]).delattr "gone"
          = .error (.attributeError "gone")
      ∧ ((FramerState.init : FramerState Nat).run
          [.attrSet "gone" (.base 1), .attrDel "gone"]).delitem "gone"
          = .error (.keyError "gone")
      ∧ ((FramerState.init : FramerState Nat).run
          [.attrSet "gone" (.base 1), .attrDel "gone"]).applyOp (.attrDel "gone")
          = (FramerState.init : FramerState Nat).run
              [.attrSet "gone" (.base 1), .attrDel "gone"]
      ∧ ((FramerState.init : FramerState Nat).run
          [.attrSet "gone" (.base 1), .attrDel "gone"]).applyOp (.itemDel "gone")
          = (FramerState.init : FramerState Nat).run
              [.attrSet "gone" (.base 1), .attrDel "gone"]) :=
  ⟨rfl, by decide, by decide, rfl, rfl,
   C4_amended_notfound
     ((FramerState.init : FramerState Nat).run
       [.attrSet "gone" (.base 1), .attrDel "gone"])
     "gone" [] rfl (by decide) (by decide) rfl rfl⟩

/-- Claim C1 as stated is false: the reserved name `_data` is itself
writable attribute-style (one public operation from a fresh container),
and that write rebinds the exposed mapping — size() changes from 0 to 1
and iterate() now produces the reserved-prefixed name `_x`, so neither
"the mapping, size(), and iterate() are unchanged" nor "no name
beginning with an underscore is ever stored in the exposed mapping"
survives this operation. -/
theorem C1_counterexample :
    (FramerState.init : FramerState Nat).lenState = .ok 0
    ∧ (FramerState.init : FramerState Nat).iterState = .ok []
    ∧ ∃ s' : FramerState Nat,
        (FramerState.init : FramerState Nat).setattr "_data"
            (.pydict [("_x", .base 0)]) = .ok s'
        ∧ s'.lenState = .ok 1
        ∧ s'.iterState = .ok ["_x"]
        ∧ reservedName "_x" = true :=
  ⟨rfl, rfl, ⟨[("_data", .pydict [("_x", .base 0)])]⟩, rfl, rfl, rfl, by decide⟩

/-- Claim C1, amended: for every sequence of public operations from a
fresh container in which no attribute-style set or delete targets the
bookkeeping name `_data` itself, no name beginning with an underscore
is ever stored in the exposed mapping; and an attribute-style write of
a reserved-prefixed name other than `_data` succeeds while leaving the
mapping, size() and iterate() unchanged. -/
theorem C1_amended_reserved_namespace {V : Type} (ops : List (Op V))
    (hops : ∀ op ∈ ops, opAllowed op = true) :
    (∀ d, ((FramerState.init : FramerState V).run ops).getData = .ok d →
        ∀ p ∈ d, reservedName p.1 = false)
    ∧ ∀ (s : FramerState V) (n : String) (v : PyVal V),
        s.wf = true → reservedName n = true → n ≠ "_data" →
        ∃ s', s.setattr n v = .ok s'
          ∧ s'.getData = s.getData
          ∧ s'.lenState = s.lenState
          ∧ s'.iterState = s.iterState := by
  constructor
  · intro d hd p hp
    have hwf := FramerState.wf_run (FramerState.init : FramerState V) ops
      FramerState.wf_init hops
    obtain ⟨d', hd', hvalid⟩ := FramerState.wf_getData _ hwf
    have hdd : d' = d := Except.ok.inj (hd'.symm.trans hd)
    subst hdd
    exact reservedName_eq_false_of_valid _ (hvalid p hp)
  · intro s n v hwf hres hne
    have hgd : (⟨PyDict.set s.dunderDict n v⟩ : FramerState V).getData = s.getData := by
      simp [FramerState.getData, PyDict.lookup_set_ne _ _ _ _ hne]
    refine ⟨⟨PyDict.set s.dunderDict n v⟩, FramerState.setattr_reserved s n v hres,
      hgd, ?_, ?_⟩
    · simp [FramerState.lenState, hgd]
    · simp [FramerState.iterState, hgd]

/-- Witness for the amended C1: a short operation sequence mixing both
styles and a reserved-name attribute write. -/
theorem C1_witness :
    (∀ op ∈ ([.itemSet "a" (.base 0), .attrSet "_flag" (.base 1),
        .attrSet "b" (.base 2), .itemDel "a"] : List (Op Nat)),
      opAllowed op = true)
    ∧ ((∀ d, ((FramerState.init : FramerState Nat).run
          [.itemSet "a" (.base 0), .attrSet "_flag" (.base 1),
            .attrSet "b" (.base 2), .itemDel "a"]).getData = .ok d →
          ∀ p ∈ d, reservedName p.1 = false)
      ∧ ∀ (s : FramerState Nat) (n : String) (v : PyVal Nat),
          s.wf = true → reservedName n = true → n ≠ "_data" →
          ∃ s', s.setattr n v = .ok s'
            ∧ s'.getData = s.getData
            ∧ s'.lenState = s.lenState
            ∧ s'.iterState = s.iterState) :=
  ⟨by decide,
   C1_amended_reserved_namespace
     [.itemSet "a" (.base 0), .attrSet "_flag" (.base 1),
       .attrSet "b" (.base 2), .itemDel "a"]
     (by decide)⟩

namespace PyDict

variable {V : Type}

theorem set_eq_append (d : List (String × V)) (k : String) (v : V)
    (h : lookup d k = none) : set d k v = d ++ [(k, v)] := by
  induction d with
  | nil => simp [set]
  | cons p rest ih =>
      obtain ⟨k', v'⟩ := p
      rw [lookup_cons] at h
      by_cases hk : k' = k
      · rw [if_pos hk] at h
        cases h
      · rw [if_neg hk] at h
        simp [set, hk, ih h]

theorem lookup_append_none (d e : List (String × V)) (k : String)
    (hd : lookup d k = none) (he : lookup e k = none) :
    lookup (d ++ e) k = none := by
  induction d with
  | nil => simpa using he
  | cons p rest ih =>
      obtain ⟨k', v'⟩ := p
      rw [lookup_cons] at hd
      by_cases hk : k' = k
      · rw [if_pos hk] at hd
        cases hd
      · rw [if_neg hk] at hd
        rw [List.cons_append, lookup_cons, if_neg hk]
        exact ih hd

theorem lookup_isSome_of_mem_keys (d : List (String × V)) (k : String)
    (h : k ∈ d.map Prod.fst) : ∃ v, lookup d k = some v := by
  induction d with
  | nil => simp at h
  | cons p rest ih =>
      obtain ⟨k', v'⟩ := p
      by_cases hk : k' = k
      · exact ⟨v', by rw [lookup_cons, if_pos hk]⟩
      · simp only [List.map_cons, List.mem_cons] at h
        rcases h with h | h
        · exact absurd h.symm hk
        · obtain ⟨v, hv⟩ := ih h
          exact ⟨v, by rw [lookup_cons, if_neg hk]; exact hv⟩

theorem del_eq_filter (d : List (String × V)) (k : String)
    (h : (d.map Prod.fst).Nodup) :
    del d k = d.filter fun p => decide (p.1 ≠ k) := by
  induction d with
  | nil => simp [del]
  | cons p rest ih =>
      obtain ⟨k', v'⟩ := p
      simp only [List.map_cons, List.nodup_cons] at h
      by_cases hk : k' = k
      · subst hk
        rw [List.filter_cons_of_neg (by simp)]
        have hLHS : del ((k', v') :: rest) k' = rest := by
          simp [del]
        rw [hLHS]
        refine (List.filter_eq_self.mpr ?_).symm
        intro p hp
        simp only [ne_eq, decide_eq_true_eq]
        exact fun heq => h.1 (heq ▸ List.mem_map_of_mem Prod.fst hp)
      · rw [List.filter_cons_of_pos (by simp [hk])]
        have hLHS : del ((k', v') :: rest) k = (k', v') :: del rest k := by
          simp [del, hk]
        rw [hLHS, ih h.2]

end PyDict

namespace FramerState

variable {V : Type}

theorem run_append (s : FramerState V) (a b : List (Op V)) :
    s.run (a ++ b) = (s.run a).run b := by
  induction a generalizing s with
  | nil => rfl
  | cons op a ih => simp [run_cons, ih]

/-- Setting a list of distinct, valid, fresh names appends the
corresponding entries to the data dict in order. -/
theorem run_attrSets_getData (vv : String → PyVal V) (ns : List String)
    (s : FramerState V) (d : List (String × PyVal V))
    (hval : ∀ n ∈ ns, validName n = true)
    (hd : s.getData = .ok d)
    (habs : ∀ n ∈ ns, PyDict.lookup d n = none)
    (hnd : ns.Nodup) :
    (s.run (ns.map fun n => Op.attrSet n (vv n))).getData
      = .ok (d ++ ns.map fun n => (n, vv n)) := by
  induction ns generalizing s d with
  | nil => simpa using hd
  | cons n ns ih =>
      have hvn := hval n (List.mem_cons_self _ _)
      have habn := habs n (List.mem_cons_self _ _)
      rw [List.map_cons, run_cons]
      have hstep : s.applyOp (.attrSet n (vv n)) = s.setData (PyDict.set d n (vv n)) := by
        simp only [applyOp, setattr_valid s n (vv n) d hvn hd, keepOn]
      rw [hstep]
      have hset := PyDict.set_eq_append d n (vv n) habn
      have ih2 := ih (s.setData (PyDict.set d n (vv n))) (d ++ [(n, vv n)])
        (fun m hm => hval m (List.mem_cons_of_mem _ hm))
        (by rw [getData_setData, hset])
        (fun m hm => by
          have hne : n ≠ m := fun heq => (List.nodup_cons.mp hnd).1 (heq ▸ hm)
          exact PyDict.lookup_append_none _ _ _
            (habs m (List.mem_cons_of_mem _ hm)) (by simp [hne]))
        (List.nodup_cons.mp hnd).2
      rw [ih2, List.append_assoc]
      rfl

/-- Deleting a list of distinct, valid names that are all present
filters the corresponding entries out of the data dict. -/
theorem run_attrDels_getData (ds : List String) (s : FramerState V)
    (d : List (String × PyVal V))
    (hval : ∀ x ∈ ds, validName x = true)
    (hd : s.getData = .ok d)
    (hkeys : (d.map Prod.fst).Nodup)
    (hmem : ∀ x ∈ ds, x ∈ d.map Prod.fst)
    (hnd : ds.Nodup) :
    (s.run (ds.map Op.attrDel)).getData
      = .ok (d.filter fun p => decide (p.1 ∉ ds)) := by
  induction ds generalizing s d with
  | nil =>
      rw [List.map_nil, run_nil, hd]
      congr 1
      exact (List.filter_eq_self.mpr fun p _ => by simp).symm
  | cons x ds ih =>
      have hvx := hval x (List.mem_cons_self _ _)
      obtain ⟨w, hw⟩ :=
        PyDict.lookup_isSome_of_mem_keys d x (hmem x (List.mem_cons_self _ _))
      rw [List.map_cons, run_cons]
      have hstep : s.applyOp (.attrDel x) = s.setData (PyDict.del d x) := by
        simp only [applyOp, delattr_valid s x d hvx hd, hw, keepOn]
      rw [hstep]
      have hdel := PyDict.del_eq_filter d x hkeys
      have hkeys' : (((d.filter fun p => decide (p.1 ≠ x)).map Prod.fst)).Nodup :=
        ((List.filter_sublist d).map Prod.fst).nodup hkeys
      have hmem' : ∀ y ∈ ds, y ∈ (d.filter fun p => decide (p.1 ≠ x)).map Prod.fst := by
        intro y hy
        have hyx : y ≠ x := fun heq => (List.nodup_cons.mp hnd).1 (heq ▸ hy)
        obtain ⟨p, hp, hp1⟩ := List.mem_map.mp (hmem y (List.mem_cons_of_mem _ hy))
        exact List.mem_map.mpr ⟨p, List.mem_filter.mpr ⟨hp, by simp [hp1, hyx]⟩, hp1⟩
      have ih2 := ih (s.setData (PyDict.del d x)) (d.filter fun p => decide (p.1 ≠ x))
        (fun y hy => hval y (List.mem_cons_of_mem _ hy))
        (by rw [getData_setData, hdel])
        hkeys' hmem' (List.nodup_cons.mp hnd).2
      rw [ih2]
      congr 1
      rw [List.filter_filter]
      apply List.filter_congr
      intro p hp
      by_cases h1 : p.1 = x <;> by_cases h2 : p.1 ∈ ds <;> simp [h1, h2]

end FramerState

/-- Counting the names of `ns` that survive deleting `ds`. -/
theorem length_filter_not_mem (ns ds : List String) (hns : ns.Nodup) (hds : ds.Nodup)
    (hsub : ∀ x ∈ ds, x ∈ ns) :
    (ns.filter fun n => decide (n ∉ ds)).length = ns.length - ds.length := by
  induction ds generalizing ns with
  | nil => simp
  | cons x ds ih =>
      have hx : x ∈ ns := hsub x (List.mem_cons_self _ _)
      have hxds : x ∉ ds := (List.nodup_cons.mp hds).1
      have h1 : (ns.filter fun n => decide (n ∉ x :: ds))
          = (ns.erase x).filter fun n => decide (n ∉ ds) := by
        rw [List.Nodup.erase_eq_filter hns, List.filter_filter]
        apply List.filter_congr
        intro a ha
        by_cases h2 : a = x <;> by_cases h3 : a ∈ ds <;> simp [h2, h3]
      rw [h1, ih (ns.erase x) (hns.erase x) (List.nodup_cons.mp hds).2
        (fun y hy => (List.mem_erase_of_ne
          fun (heq : y = x) => hxds (heq ▸ hy)).mpr
          (hsub y (List.mem_cons_of_mem _ hy)))]
      rw [List.length_erase_of_mem hx, List.length_cons]
      omega

/-- Claim C5: after setting k distinct non-reserved names on a fresh
FramerState and then deleting a strict subset D of them, size() equals
k minus the cardinality of D, and the set of names produced by
iterate() equals exactly the set names minus D. -/
theorem C5_size_and_iteration {V : Type} (vv : String → PyVal V) (ns ds : List String)
    (hns : ns.Nodup) (hval : ∀ n ∈ ns, validName n = true)
    (hds : ds.Nodup) (hsub : ∀ x ∈ ds, x ∈ ns)
    (hstrict : ∃ n ∈ ns, n ∉ ds) :
    ∃ its,
      ((FramerState.init : FramerState V).run
          ((ns.map fun n => Op.attrSet n (vv n)) ++ ds.map Op.attrDel)).iterState
        = .ok its
      ∧ (∀ x, x ∈ its ↔ x ∈ ns ∧ x ∉ ds)
      ∧ ((FramerState.init : FramerState V).run
          ((ns.map fun n => Op.attrSet n (vv n)) ++ ds.map Op.attrDel)).lenState
        = .ok (ns.length - ds.length) := by
  rw [FramerState.run_append]
  have hsets := FramerState.run_attrSets_getData vv ns FramerState.init []
    hval rfl (fun n _ => rfl) hns
  rw [List.nil_append] at hsets
  have hkeys : ((ns.map fun n => (n, vv n)).map Prod.fst) = ns := by
    rw [List.map_map]
    exact List.map_id ns
  have hdels := FramerState.run_attrDels_getData ds
    ((FramerState.init : FramerState V).run (ns.map fun n => Op.attrSet n (vv n)))
    (ns.map fun n => (n, vv n))
    (fun x hx => hval x (hsub x hx)) hsets (by rw [hkeys]; exact hns)
    (fun x hx => by rw [hkeys]; exact hsub x hx) hds
  have hfilter : ((ns.map fun n => (n, vv n)).filter fun p => decide (p.1 ∉ ds))
      = (ns.filter fun n => decide (n ∉ ds)).map fun n => (n, vv n) := by
    rw [List.filter_map]
    rfl
  rw [hfilter] at hdels
  refine ⟨ns.filter fun n => decide (n ∉ ds), ?_, ?_, ?_⟩
  · simp only [FramerState.iterState, hdels]
    rw [List.map_map]
    exact congrArg Except.ok (List.map_id _)
  · intro x
    simp [List.mem_filter]
  · simp only [FramerState.lenState, hdels]
    rw [List.length_map]
    exact congrArg Except.ok (length_filter_not_mem ns ds hns hds hsub)

/-- Witness for C5: set three distinct names, delete one of them. -/
theorem C5_witness :
    (["a", "b", "c"] : List String).Nodup
    ∧ (∀ n ∈ (["a", "b", "c"] : List String), validName n = true)
    ∧ (["b"] : List String).Nodup
    ∧ (∀ x ∈ (["b"] : List String), x ∈ (["a", "b", "c"] : List String))
    ∧ (∃ n ∈ (["a", "b", "c"] : List String), n ∉ (["b"] : List String))
    ∧ ∃ its,
        ((FramerState.init : FramerState Nat).run
            ((["a", "b", "c"].map fun n => Op.attrSet n ((fun _ => .base 0) n))
              ++ ["b"].map Op.attrDel)).iterState = .ok its
        ∧ (∀ x, x ∈ its ↔ x ∈ (["a", "b", "c"] : List String)
            ∧ x ∉ (["b"] : List String))
        ∧ ((FramerState.init : FramerState Nat).run
            ((["a", "b", "c"].map fun n => Op.attrSet n ((fun _ => .base 0) n))
              ++ ["b"].map Op.attrDel)).lenState
            = .ok ((["a", "b", "c"] : List String).length
                - (["b"] : List String).length) :=
  ⟨by decide, by decide, by decide, by decide, by decide,
   C5_size_and_iteration (fun _ => PyVal.base 0) ["a", "b", "c"] ["b"]
     (by decide) (by decide) (by decide) (by decide) (by decide)⟩

/-- The invariant-carrying induction behind the chunked round-trip
law: if the current state behaves on every extension of the
accumulated buffer like the session state at encode time did, feeding
the remaining chunks produces misses until the final chunk, which
decodes an equivalent frame and empties the buffer. -/
theorem feed_spec {β F S : Type} (fr : ConcreteFramer β F S) (f : F) (s : S) :
    ∀ (chunks : List (List β)) (acc : List β) (t : S),
      (∀ more, fr.to_frame (acc ++ more) t = fr.to_frame (acc ++ more) s) →
      acc ++ chunks.flatten = fr.to_bytes f s →
      chunks ≠ [] → (∀ c ∈ chunks, c ≠ []) →
      ∃ f', feed fr t acc chunks
          = List.replicate (chunks.length - 1) .miss ++ [.hit f' []]
        ∧ fr.fequiv f' f := by
  intro chunks
  induction chunks with
  | nil =>
      intro acc t _ _ hne _
      exact absurd rfl hne
  | cons c cs ih =>
      intro acc t hinv hfull _ hch
      rcases cs with _ | ⟨c2, cs'⟩
      · have hfull' : acc ++ c = fr.to_bytes f s := by
          simpa using hfull
        obtain ⟨f', s', hdec, hequiv⟩ := fr.decode_encode f s
        have hcall : fr.to_frame (acc ++ c) t = .frame f' [] s' := by
          rw [hinv c, hfull']
          exact hdec
        refine ⟨f', ?_, hequiv⟩
        simp [feed, hcall]
      · have hjoin_ne : (c2 :: cs').flatten ≠ [] := by
          have hc2 : c2 ≠ [] := hch c2 (by simp)
          simp only [List.flatten]
          intro hcon
          exact hc2 (List.append_eq_nil.mp hcon).1
        obtain ⟨s1, hs1⟩ := fr.underflow f s (acc ++ c) ((c2 :: cs').flatten)
          (by rw [List.append_assoc]; simpa using hfull) hjoin_ne
        have hcall : fr.to_frame (acc ++ c) t = .noFrame s1 := by
          rw [hinv c]
          exact hs1
        have hinv' : ∀ more, fr.to_frame ((acc ++ c) ++ more) s1
            = fr.to_frame ((acc ++ c) ++ more) s := fun more =>
          fr.resume (acc ++ c) s s1 more hs1
        obtain ⟨f', hfeed, hequiv⟩ := ih (acc ++ c) s1 hinv'
          (by rw [List.append_assoc]; simpa using hfull) (by simp)
          (fun x hx => hch x (List.mem_cons_of_mem _ hx))
        refine ⟨f', ?_, hequiv⟩
        have hstep : feed fr t acc (c :: c2 :: cs')
            = .miss :: feed fr s1 (acc ++ c) (c2 :: cs') := by
          conv_lhs => rw [feed]
          rw [hcall]
        rw [hstep, hfeed]
        simp [List.replicate_succ]

/-- Claim C7: round-trip law for any concrete framing strategy
satisfying the Framer contract — encoding a frame and feeding the
resulting bytes, split across buffer-append calls in any chunking,
into repeated decode calls on the same session state yields the
NoFrame condition zero or more times followed by exactly one
successful decode that consumes the whole encoding and returns a frame
equivalent to the original. -/
theorem C7_roundtrip_chunked {β F S : Type} (fr : ConcreteFramer β F S) (f : F)
    (s : S) (chunks : List (List β)) (hne : chunks ≠ [])
    (hch : ∀ c ∈ chunks, c ≠ [])
    (hfull : chunks.flatten = fr.to_bytes f s) :
    ∃ f', feed fr s [] chunks
        = List.replicate (chunks.length - 1) FeedStep.miss ++ [.hit f' []]
      ∧ fr.fequiv f' f :=
  feed_spec fr f s chunks [] s (fun _ => rfl) (by simpa using hfull) hne hch

/-- Witness for C7: the two-byte framer, its encoding of the frame 7
delivered in two one-byte chunks — one NoFrame, then the decode. -/
theorem C7_witness :
    ([[7], [7]] : List (List Nat)) ≠ []
    ∧ (∀ c ∈ ([[7], [7]] : List (List Nat)), c ≠ [])
    ∧ ([[7], [7]] : List (List Nat)).flatten = duoFramer.to_bytes 7 ()
    ∧ ∃ f', feed duoFramer () [] [[7], [7]]
        = List.replicate (([[7], [7]] : List (List Nat)).length - 1) FeedStep.miss
          ++ [.hit f' []]
      ∧ duoFramer.fequiv f' 7 :=
  ⟨by decide, by decide, rfl,
   C7_roundtrip_chunked duoFramer 7 () [[7], [7]] (by decide) (by decide) rfl⟩
